import Mathlib

/-!
Verification of the spec of the `replypilot-backend` repository against a
shallow embedding of its JavaScript sources.

Strings are modelled as Lean `String` / `List Char`.  The JavaScript regular
expressions used by the code (all of them literal words or phrases with `\b`
word boundaries, `\s` whitespace classes and an optional trailing dot) are
embedded as explicit scanning functions with the exact semantics of
`String.prototype.replace` with the `g` and `i` flags: non-overlapping
left-to-right matches, case-insensitive ASCII comparison, greedy `\s+`,
scanning resuming right after each match.  Remote provider calls are inputs
(oracles): an outcome is either the returned text content or a thrown error.
HTTP handlers are pure functions from the request body, the provider
configuration and the call outcomes to the response, together with the list
of remote calls actually attempted.  Prompt construction only feeds the
remote providers, whose replies are oracles here, so the prompt-building
helpers (`buildRules`, `buildPrompt`) are absorbed into the oracle.
-/

namespace ReplyPilot

/-! ## Character model (ASCII fragment of the JS semantics) -/

/-- JS whitespace (the values of `\s` and `String.prototype.trim` relevant to
the ASCII fragment modelled here). -/
def isWS (c : Char) : Bool :=
  c == ' ' || c == '\t' || c == '\n' || c == '\r' ||
  c == Char.ofNat 11 || c == Char.ofNat 12

/-- JS regex word character `\w` = `[A-Za-z0-9_]`; `\b` holds between a word
and a non-word character (or the edge of the string). -/
def isWordChar (c : Char) : Bool :=
  ('a' ≤ c && c ≤ 'z') || ('A' ≤ c && c ≤ 'Z') || ('0' ≤ c && c ≤ '9') || c == '_'

/-- ASCII lower-casing, as `String.prototype.toLowerCase` acts on ASCII. -/
def jsLower (c : Char) : Char :=
  if 'A' ≤ c && c ≤ 'Z' then Char.ofNat (c.toNat + 32) else c

def listLower (l : List Char) : List Char := l.map jsLower

/-- Sentence-ending punctuation (the `[.!?]` class of `trimToMaxSentences`'s
split regex and of `normalizeFilipinoSellerTone`'s final check). -/
def isSentEnd (c : Char) : Bool := c == '.' || c == '!' || c == '?'

/-- Does the list start with a whitespace character? -/
def headWS (l : List Char) : Bool :=
  match l with
  | [] => false
  | c :: _ => isWS c

/-! ## `trim` -/

/-- Drop JS whitespace from the front. -/
def ltrimWS (l : List Char) : List Char := l.dropWhile isWS

/-- Drop JS whitespace from the back. -/
def rtrimWS (l : List Char) : List Char := (l.reverse.dropWhile isWS).reverse

/-- `String.prototype.trim`. -/
def jsTrim (l : List Char) : List Char := rtrimWS (ltrimWS l)

def trimStr (s : String) : String := ⟨jsTrim s.data⟩

/-! ## Whole-word matching (the `\bword\b` tests of `detectLanguage` and of
the `/\bpo\b/i` check inside `polish`) -/

/-- Strip the (lower-case) literal `w` from the front of `t`, comparing
case-insensitively.  This is the atom used by every literal regex of the
sources. -/
def stripLits : (w t : List Char) → Option (List Char)
  | [], t => some t
  | _ :: _, [] => none
  | a :: w', c :: t' => if jsLower c == a then stripLits w' t' else none

/-- Same as `stripLits` but carrying the length equation, for use inside the
scanners. -/
def stripCIlen :
    (w : List Char) → (t : List Char) →
    Option {r : List Char // r.length + w.length = t.length}
  | [], t => some ⟨t, by simp⟩
  | _ :: _, [] => none
  | a :: w', c :: t' =>
    if jsLower c == a then
      match stripCIlen w' t' with
      | none => none
      | some ⟨r, h⟩ =>
        some ⟨r, by
          have h' : r.length + w'.length = t'.length := h
          simp only [List.length_cons]; omega⟩
    else none

/-- `\b` after a match whose last character is a word character: the rest must
start with a non-word character (or be empty). -/
def boundaryOK (rest : List Char) : Bool :=
  match rest with
  | [] => true
  | c :: _ => !isWordChar c

/-- Does `w` followed by `\b` match at the start of `t`? -/
def wordTestAt (w t : List Char) : Bool :=
  match stripLits w t with
  | some r => boundaryOK r
  | none => false

/-- One step of the `\bw\b` scan: `prev` records whether the character before
the current position is a word character. -/
def hasWordFrom (w : List Char) (prev : Bool) : List Char → Bool
  | [] => false
  | c :: t => (!prev && wordTestAt w (c :: t)) || hasWordFrom w (isWordChar c) t

/-- `new RegExp("\\b" + w + "\\b", "i").test(t)` for a literal lower-case word
`w`. -/
def hasWord (w : List Char) (t : List Char) : Bool := hasWordFrom w false t

/-! ## Generic literal replace (`String.prototype.replace` with `g`+`i` on the
literal patterns of `polish`) -/

/-- A literal JS pattern: optional leading `\b`, a literal (stored lower-case),
an optional trailing `\.?`, an optional trailing `\b`. -/
structure Pat where
  pre : Bool
  lits : List Char
  optDot : Bool
  post : Bool

/-- Consume the optional trailing `\.?` of a pattern (greedy, as in JS). -/
def dropOptDot (optDot : Bool) (r : List Char) : List Char :=
  match optDot, r with
  | true, '.' :: r' => r'
  | _, _ => r

/-- Try the pattern at the current position.  On success, return the text
after the match, with the proof that something was consumed. -/
def matchPat (p : Pat) (prev : Bool) (t : List Char) :
    Option {r : List Char // r.length < t.length} :=
  if p.pre && prev then none
  else
    match p.lits with
    | [] => none
    | a :: w' =>
      match stripCIlen (a :: w') t with
      | none => none
      | some ⟨r, h⟩ =>
        if p.post && !boundaryOK (dropOptDot p.optDot r) then none
        else
          some ⟨dropOptDot p.optDot r, by
            have h' : r.length + (a :: w').length = t.length := h
            have hle : (dropOptDot p.optDot r).length ≤ r.length := by
              unfold dropOptDot; split <;> simp
            simp only [List.length_cons] at h'
            omega⟩

/-- Global replace: scan left to right, replace each non-overlapping match,
resume right after the matched text.  The scan walks one character at a time;
`skip` counts the characters of the current match still to be walked past
(their `\b` word-character status is tracked on the way), so the recursion is
structural and the function evaluates by kernel reduction. -/
def globalReplaceGo (p : Pat) (repl : List Char) :
    Nat → Bool → List Char → List Char
  | _ + 1, _, [] => []
  | skip + 1, _, c :: rest => globalReplaceGo p repl skip (isWordChar c) rest
  | 0, _, [] => []
  | 0, prev, c :: rest =>
    match matchPat p prev (c :: rest) with
    | some rs =>
      repl ++
        globalReplaceGo p repl ((c :: rest).length - rs.1.length - 1)
          (isWordChar c) rest
    | none => c :: globalReplaceGo p repl 0 (isWordChar c) rest

/-- `text.replace(pattern-with-g-and-i-flags, repl)`. -/
def globalReplace (p : Pat) (repl : List Char) (t : List Char) : List Char :=
  globalReplaceGo p repl 0 false t

/-! ## Text normalizer `polish` (src/unnamed/part_000 lines 65-73 and
src/unnamed/part_001 lines 84-92) -/

def patRecieve : Pat := ⟨true, "recieve".data, false, true⟩

def patRecieved : Pat := ⟨true, "recieved".data, false, true⟩

def patAppreciate : Pat := ⟨false, "we appreciate your business".data, true, false⟩

def patHope : Pat := ⟨false, "hope to serve you again soon".data, true, false⟩

/-- The conditional politeness append of `polish`:
`if (lang === "taglish" && !/\bpo\b/i.test(s)) s += " Salamat po!"`. -/
def polishAppend (s : List Char) (lang : String) : List Char :=
  if lang = "taglish" ∧ hasWord "po".data s = false then
    s ++ " Salamat po!".data
  else s

/-- The chain of the four global replaces of `polish`, then the conditional
`" Salamat po!"` append for `"taglish"`, then `trim`. -/
def polishCoreData (l : List Char) (lang : String) : List Char :=
  jsTrim (polishAppend
    (globalReplace patHope "Sana po makabalik kayo ulit!".data
      (globalReplace patAppreciate "Salamat po sa order ninyo!".data
        (globalReplace patRecieved "received".data
          (globalReplace patRecieve "receive".data l)))) lang)

/-- `polish` of part_000 (operates on the string directly; a non-string input
would throw in JS, so the model takes a `String`). -/
def polish (text : String) (lang : String) : String :=
  ⟨polishCoreData text.data lang⟩

/-- `clean` of part_000/part_001: `(v ?? "").toString().trim()`. -/
def clean1 (v : Option String) : String := trimStr (v.getD "")

/-- `polish` of part_001: applies `clean` to the input first, hence total on
null/undefined as well. -/
def polish1 (text : Option String) (lang : String) : String :=
  ⟨polishCoreData (clean1 text).data lang⟩

/-! ## Language classifier (`detectLanguage`, src/unnamed/part_000 lines 26-31
and src/unnamed/part_001 lines 45-50) -/

/-- The fixed secondary-language marker list of `detectLanguage`. -/
def markers : List (List Char) :=
  (["salamat", "po", "opo", "mabilis", "sana", "ang", "ng", "kasi", "meron",
    "wala"].map String.data)

/-- `detectLanguage` of part_000/part_001: lower-case the text, count the
markers occurring as whole words, classify `"taglish"` iff the count is ≥ 2. -/
def detectLanguage (text : String) : String :=
  let t := listLower text.data
  let hits := (markers.filter fun w => hasWord w t).length
  if 2 ≤ hits then "taglish" else "english"

/-- The number of distinct marker words occurring (as whole words) in the
lower-cased text. -/
def markerHits (text : String) : Nat :=
  (markers.filter fun w => hasWord w (listLower text.data)).length

/-- `normalizeLanguage` of part_001 (`String(language || "auto")
.toLowerCase().trim()`, explicit labels pass through, otherwise classify). -/
def normalizeLanguage (language : Option String) (text : String) : String :=
  let raw : String :=
    match language with
    | none => "auto"
    | some s => if s = "" then "auto" else s
  let l : String := ⟨jsTrim (listLower raw.data)⟩
  if l = "english" ∨ l = "taglish" then l else detectLanguage text

/-- `normalizeLanguage` of part_000 (same but without the trim). -/
def normalizeLanguage0 (language : Option String) (text : String) : String :=
  let raw : String :=
    match language with
    | none => "auto"
    | some s => if s = "" then "auto" else s
  let l : String := ⟨listLower raw.data⟩
  if l = "english" ∨ l = "taglish" then l else detectLanguage text

/-! ## `dedupePo` (src/backend/server.js lines 109-115):
`text.replace(/\bpo\s+po\b/gi, "po").replace(/\b(po\s+){2,}/gi, "po ")` -/

/-- Match `\bpo\s+po\b` at the current position (the caller has already
checked the leading `\b`).  Greedy `\s+`; deterministic because no whitespace
character can start `po`. -/
def matchPoPo (t : List Char) : Option {r : List Char // r.length < t.length} :=
  match stripCIlen "po".data t with
  | none => none
  | some ⟨r1, h1⟩ =>
    if headWS r1 then
      match stripCIlen "po".data (r1.dropWhile isWS) with
      | none => none
      | some ⟨r3, h3⟩ =>
        if boundaryOK r3 then
          some ⟨r3, by
            have h1' : r1.length + ("po".data).length = t.length := h1
            have h3' : r3.length + ("po".data).length =
                (r1.dropWhile isWS).length := h3
            have hdw : (r1.dropWhile isWS).length ≤ r1.length :=
              (List.dropWhile_sublist isWS).length_le
            have hpo : ("po".data).length = 2 := rfl
            omega⟩
        else none
    else none

/-- First replace of `dedupePo`: `/\bpo\s+po\b/gi` → `"po"`.  One-character-
at-a-time scan; `skip` walks past the already-matched characters. -/
def dedupe1Go : Nat → Bool → List Char → List Char
  | _ + 1, _, [] => []
  | skip + 1, _, c :: rest => dedupe1Go skip (isWordChar c) rest
  | 0, _, [] => []
  | 0, prev, c :: rest =>
    if prev then c :: dedupe1Go 0 (isWordChar c) rest
    else
      match matchPoPo (c :: rest) with
      | some rs =>
        'p' :: 'o' ::
          dedupe1Go ((c :: rest).length - rs.1.length - 1) (isWordChar c) rest
      | none => c :: dedupe1Go 0 (isWordChar c) rest

/-- Greedy repetition of the group `(po\s+)`: number of full blocks matched
and the remaining text.  Each block consumes at least three characters, so
`t.length` steps of fuel always suffice. -/
def poBlocksGo : Nat → List Char → Nat × List Char
  | 0, t => (0, t)
  | fuel + 1, t =>
    match stripLits "po".data t with
    | none => (0, t)
    | some r1 =>
      if headWS r1 then
        let q := poBlocksGo fuel (r1.dropWhile isWS)
        (q.1 + 1, q.2)
      else (0, t)

def poBlocks (t : List Char) : Nat × List Char := poBlocksGo t.length t

/-- Second replace of `dedupePo`: `/\b(po\s+){2,}/gi` → `"po "`. -/
def dedupe2Go : Nat → Bool → List Char → List Char
  | _ + 1, _, [] => []
  | skip + 1, _, c :: rest => dedupe2Go skip (isWordChar c) rest
  | 0, _, [] => []
  | 0, prev, c :: rest =>
    if prev then c :: dedupe2Go 0 (isWordChar c) rest
    else
      let q := poBlocks (c :: rest)
      if 2 ≤ q.1 then
        'p' :: 'o' :: ' ' ::
          dedupe2Go ((c :: rest).length - q.2.length - 1) (isWordChar c) rest
      else c :: dedupe2Go 0 (isWordChar c) rest

/-- `dedupePo` of src/backend/server.js lines 109-115 (a falsy, i.e. empty,
input is returned unchanged). -/
def dedupePo (text : String) : String :=
  if text = "" then text
  else ⟨dedupe2Go 0 false (dedupe1Go 0 false text.data)⟩

/-! ## `trimToMaxSentences` (src/backend/server.js lines 118-122):
`text.split(/(?<=[.!?])\s+/)` then `slice(0, maxSentences).join(" ").trim()` -/

/-- The sentence splitter: a split point is a maximal whitespace run preceded
by `[.!?]`; `acc` holds the reversed current part. -/
def splitGo (acc : List Char) (t : List Char) : List (List Char) :=
  match t with
  | [] => [acc.reverse]
  | c :: rest =>
    if isSentEnd c && headWS rest then
      (acc.reverse ++ [c]) :: splitGo [] (rest.dropWhile isWS)
    else
      splitGo (c :: acc) rest
termination_by t.length
decreasing_by
  · simp only [List.length_cons, Nat.lt_succ_iff]
    exact (List.dropWhile_sublist isWS).length_le
  · simp

def splitSents (l : List Char) : List (List Char) := splitGo [] l

/-- `parts.join(" ")`. -/
def joinSp : List (List Char) → List Char
  | [] => []
  | [p] => p
  | p :: ps => p ++ ' ' :: joinSp ps

/-- `trimToMaxSentences` of src/backend/server.js lines 118-122 (a falsy,
i.e. empty, input is returned unchanged). -/
def trimToMaxSentences (text : String) (maxSentences : Nat) : String :=
  if text = "" then text
  else ⟨jsTrim (joinSp ((splitSents text.data).take maxSentences))⟩

/-- No split point inside: no sentence-end character immediately followed by
whitespace. -/
def NoBreak (l : List Char) : Prop :=
  List.Chain' (fun a b => ¬(isSentEnd a = true ∧ isWS b = true)) l

/-- Ends with a sentence-end character (in particular, non-empty). -/
def EndsSent (l : List Char) : Prop :=
  ∃ c, l.getLast? = some c ∧ isSentEnd c = true

/-- Shape of a join-ready parts list: non-empty; no part has an internal
split point; every part but the last ends with a sentence-end character; no
part after the first starts with whitespace. -/
def Chunks (ps : List (List Char)) : Prop :=
  ps ≠ [] ∧
  (∀ p ∈ ps, NoBreak p) ∧
  (∀ p ∈ ps.dropLast, EndsSent p) ∧
  (∀ p ∈ ps.tail, ∀ c, p.head? = some c → isWS c = false)

/-! ## Provider choice of the v0.8 hybrid (src/backend/server.js lines
163-182 and 281-290) -/

/-- `normalizeLanguage` of the v0.8 hybrid backend:
`String(raw || "").trim().toLowerCase()` then a fixed alias map with default
`"english"`. -/
def normalizeLanguage08 (raw : Option String) : String :=
  let v : String := ⟨listLower (jsTrim (raw.getD "").data)⟩
  if v = "en" ∨ v = "eng" ∨ v = "english" then "english"
  else if v = "tl" ∨ v = "fil" ∨ v = "filipino" ∨ v = "tagalog" then "filipino"
  else if v = "taglish" then "taglish"
  else if v = "auto" then "auto"
  else "english"

/-- `shouldUseOpenAI` of the v0.8 hybrid backend (src/backend/server.js lines
281-290): prefer OpenAI for Filipino/Taglish when a key is configured. -/
def shouldUseOpenAI (openaiConfigured : Bool) (language : Option String) :
    Bool :=
  if !openaiConfigured then false
  else
    let lang := normalizeLanguage08 language
    if lang = "filipino" ∨ lang = "taglish" then true else false

/-! ## `looksLikeBadTaglish` (src/unnamed/part_004 lines 127-134): counts the
occurrences (not distinct words) of two `\b(w1|w2|...)\b` alternations. -/

def engMarkers4 : List (List Char) :=
  (["the", "and", "is", "are", "with", "for", "this", "that"].map String.data)

def filMarkers4 : List (List Char) :=
  (["po", "opo", "salamat", "sige", "pwede", "na", "pa"].map String.data)

/-- First alternative of the alternation matching at the current position
with the trailing `\b` (JS backtracks into later alternatives when the
trailing `\b` fails). -/
def altMatch (words : List (List Char)) (t : List Char) :
    Option {r : List Char // r.length < t.length} :=
  match words with
  | [] => none
  | w :: ws =>
    match w with
    | [] => altMatch ws t
    | a :: w' =>
      match stripCIlen (a :: w') t with
      | some ⟨r, h⟩ =>
        if boundaryOK r then
          some ⟨r, by
            have h' : r.length + (a :: w').length = t.length := h
            simp only [List.length_cons] at h'
            omega⟩
        else altMatch ws t
      | none => altMatch ws t

/-- `(text.match(/\b(w1|...|wk)\b/gi) || []).length`: count non-overlapping
matches left to right. -/
def countAltsGo (words : List (List Char)) : Nat → Bool → List Char → Nat
  | _ + 1, _, [] => 0
  | skip + 1, _, c :: rest => countAltsGo words skip (isWordChar c) rest
  | 0, _, [] => 0
  | 0, prev, c :: rest =>
    if prev then countAltsGo words 0 (isWordChar c) rest
    else
      match altMatch words (c :: rest) with
      | some rs =>
        1 + countAltsGo words ((c :: rest).length - rs.1.length - 1)
              (isWordChar c) rest
      | none => countAltsGo words 0 (isWordChar c) rest

/-- `looksLikeBadTaglish` of src/unnamed/part_004 lines 127-134. -/
def looksLikeBadTaglish (text : String) : Bool :=
  let englishWords := countAltsGo engMarkers4 0 false text.data
  let filipinoWords := countAltsGo filMarkers4 0 false text.data
  decide (6 < englishWords) && decide (filipinoWords < 2)

/-! ## HTTP endpoint models

The request body fields that reach a response are modelled; `productName`,
`platform`, `rating` and `tone` only flow into the prompt handed to the
remote provider, whose reply is an oracle, so they do not appear.  A remote
call outcome is the content string the SDK returned or the thrown error. -/

/-- Outcome of one remote provider call. -/
inductive Outcome where
  | ok (content : String)
  | err (msg : String)
  deriving DecidableEq, Repr

/-- A remote call that was actually attempted. -/
inductive Call where
  | gemini
  | groq
  | openai
  deriving DecidableEq, Repr

/-- Which provider credentials are configured (non-empty after cleaning). -/
structure Config where
  gemini : Bool := false
  groq : Bool := false
  openai : Bool := false
  deriving Repr

/-- Outcomes of the provider calls a handler might make, in the order the
code can make them. -/
structure Providers where
  gemini : Outcome := .err "unused"
  groq : Outcome := .err "unused"
  openaiGen : Outcome := .err "unused"
  openaiClean : Outcome := .err "unused"
  deriving Repr

/-- The JSON response: status plus the fields the handlers emit. -/
structure Resp where
  status : Nat := 200
  error : Option String := none
  details : Option String := none
  reply : Option String := none
  engine : Option String := none
  language : Option String := none
  deriving DecidableEq, Repr

/-- Request body: `none` = field absent (undefined), `some none` = null,
`some (some s)` = the string `s`. -/
structure Body where
  reviewText : Option (Option String) := none
  language : Option String := none
  deriving Repr

/-- `clean(req.body.reviewText)`: undefined/null coerce to `""`, strings are
trimmed. -/
def cleanField (v : Option (Option String)) : String :=
  match v with
  | some (some s) => trimStr s
  | _ => ""

/-- `geminiReply` of part_001 lines 109-117: throws `GEMINI_NOT_CONFIGURED`
before any remote call when the client is missing; otherwise the call's
content (`|| ""` folded into the oracle) or its thrown error. -/
def geminiReply1 (cfg : Config) (o : Outcome) : Except String String × List Call :=
  if cfg.gemini then
    match o with
    | .ok s => (.ok s, [.gemini])
    | .err m => (.error m, [.gemini])
  else (.error "GEMINI_NOT_CONFIGURED", [])

/-- `groqReply` of part_001 lines 95-107. -/
def groqReply1 (cfg : Config) (o : Outcome) : Except String String × List Call :=
  if cfg.groq then
    match o with
    | .ok s => (.ok s, [.groq])
    | .err m => (.error m, [.groq])
  else (.error "GROQ_NOT_CONFIGURED", [])

/-- `POST /api/generate-reply` of src/unnamed/part_001 lines 120-158. -/
def handleGenerateReply1 (cfg : Config) (body : Body) (pv : Providers) :
    Resp × List Call :=
  let reviewText := cleanField body.reviewText
  if reviewText = "" then
    ({ status := 400, error := some "reviewText required" }, [])
  else
    let lang := normalizeLanguage body.language reviewText
    let gen : Except String (String × String) × List Call :=
      if lang = "taglish" then
        match geminiReply1 cfg pv.gemini with
        | (.ok r, cs) => (.ok (r, "gemini"), cs)
        | (.error _, cs) =>
          match groqReply1 cfg pv.groq with
          | (.ok r, cs2) => (.ok (r, "groq-fallback"), cs ++ cs2)
          | (.error e, cs2) => (.error e, cs ++ cs2)
      else
        match groqReply1 cfg pv.groq with
        | (.ok r, cs) => (.ok (r, "groq"), cs)
        | (.error e, cs) => (.error e, cs)
    match gen with
    | (.ok (reply, engine), cs) =>
      if reply = "" then
        ({ status := 502, error := some "EMPTY_REPLY", engine := some engine },
          cs)
      else
        ({ status := 200, reply := some (polish1 (some reply) lang),
           engine := some engine, language := some lang }, cs)
    | (.error e, cs) =>
      ({ status := 500, error := some "SERVER_ERROR", details := some e }, cs)

/-- `geminiReply` of part_000 lines 89-96: with `genAI` null, the property
access throws a TypeError before any remote call. -/
def geminiReply0 (cfg : Config) (o : Outcome) : Except String String × List Call :=
  if cfg.gemini then
    match o with
    | .ok s => (.ok s, [.gemini])
    | .err m => (.error m, [.gemini])
  else (.error "TypeError: genAI is null", [])

/-- `groqReply` of part_000 lines 76-87. -/
def groqReply0 (cfg : Config) (o : Outcome) : Except String String × List Call :=
  if cfg.groq then
    match o with
    | .ok s => (.ok s, [.groq])
    | .err m => (.error m, [.groq])
  else (.error "TypeError: groq is null", [])

/-- `POST /api/generate-reply` of src/unnamed/part_000 lines 106-146.  The
module-level `usageTracker` (line 21) is in scope but the route body never
reads or updates it, so the handler threads it through unchanged. -/
def handleGenerateReply0 (cfg : Config) (body : Body) (pv : Providers)
    (usageTracker : String → Nat) :
    Resp × (String → Nat) × List Call :=
  let text := cleanField body.reviewText
  if text = "" then
    ({ status := 400, error := some "reviewText required" }, usageTracker, [])
  else
    let lang := normalizeLanguage0 body.language text
    let gen : Except String (String × String) × List Call :=
      if lang = "taglish" then
        match geminiReply0 cfg pv.gemini with
        | (.ok r, cs) => (.ok (r, "gemini"), cs)
        | (.error _, cs) =>
          match groqReply0 cfg pv.groq with
          | (.ok r, cs2) => (.ok (r, "groq-fallback"), cs ++ cs2)
          | (.error e, cs2) => (.error e, cs ++ cs2)
      else
        match groqReply0 cfg pv.groq with
        | (.ok r, cs) => (.ok (r, "groq"), cs)
        | (.error e, cs) => (.error e, cs)
    match gen with
    | (.ok (reply, engine), cs) =>
      ({ status := 200, reply := some (polish reply lang),
         engine := some engine, language := some lang }, usageTracker, cs)
    | (.error e, cs) =>
      ({ status := 500, error := some e }, usageTracker, cs)

/-- `POST /api/generate-reply` of src/unnamed/part_004 lines 234-278 (the
hybrid router with hardened credential checks).  The generators trim the
returned content (`content?.trim() || ""`), and `cleanWithOpenAI` falls back
to the raw text when its own result is empty. -/
def handleGenerateReply4 (cfg : Config) (body : Body) (pv : Providers) :
    Resp × List Call :=
  match body.reviewText with
  | some (some s) =>
    if s = "" then ({ status := 400, error := some "Missing reviewText" }, [])
    else
      let lang : String := ⟨jsTrim (listLower (body.language.getD "").data)⟩
      if lang = "taglish" ∨ lang = "filipino" ∨ lang = "tagalog" then
        if cfg.openai then
          match pv.openaiGen with
          | .ok c =>
            ({ status := 200, reply := some (trimStr c),
               engine := some "openai-direct" }, [.openai])
          | .err _ =>
            ({ status := 500, error := some "Failed to generate reply" },
              [.openai])
        else
          ({ status := 500,
             error := some "OpenAI key not configured on server." }, [])
      else
        if cfg.groq then
          match pv.groq with
          | .err _ =>
            ({ status := 500, error := some "Failed to generate reply" },
              [.groq])
          | .ok c =>
            let reply := trimStr c
            if looksLikeBadTaglish reply && cfg.openai then
              match pv.openaiClean with
              | .ok c2 =>
                ({ status := 200,
                   reply := some (if trimStr c2 = "" then reply else trimStr c2),
                   engine := some "groq+openai-fallback" }, [.groq, .openai])
              | .err _ =>
                ({ status := 500, error := some "Failed to generate reply" },
                  [.groq, .openai])
            else
              ({ status := 200, reply := some reply, engine := some "groq" },
                [.groq])
        else
          ({ status := 500,
             error := some "Groq key not configured on server." }, [])
  | _ => ({ status := 400, error := some "Missing reviewText" }, [])

end ReplyPilot

namespace ReplyPilot

/-! # Theorems

## Shared lemmas on whole-word matching -/

theorem hasWordFrom_cons (w : List Char) (p : Bool) (c : Char) (t : List Char) :
    hasWordFrom w p (c :: t) =
      ((!p && wordTestAt w (c :: t)) || hasWordFrom w (isWordChar c) t) := rfl

theorem isWS_cases {c : Char} (h : isWS c = true) :
    c = ' ' ∨ c = '\t' ∨ c = '\n' ∨ c = '\r' ∨
    c = Char.ofNat 11 ∨ c = Char.ofNat 12 := by
  have h' := h
  simp only [isWS, Bool.or_eq_true, beq_iff_eq] at h'
  tauto

theorem isWS_not_word {c : Char} (h : isWS c = true) : isWordChar c = false := by
  rcases isWS_cases h with rfl | rfl | rfl | rfl | rfl | rfl <;> decide

theorem stripLits_po_ws {c : Char} (h : isWS c = true) (t : List Char) :
    stripLits "po".data (c :: t) = none := by
  have hne : (jsLower c == 'p') = false := by
    rcases isWS_cases h with rfl | rfl | rfl | rfl | rfl | rfl <;> decide
  show stripLits ['p', 'o'] (c :: t) = none
  simp [stripLits, hne]

theorem hasWordFrom_po_all_ws {ws : List Char}
    (hws : ∀ c ∈ ws, isWS c = true) (p : Bool) :
    hasWordFrom "po".data p ws = false := by
  induction ws generalizing p with
  | nil => rfl
  | cons c ws ih =>
    have hc := hws c (List.mem_cons_self c ws)
    rw [hasWordFrom_cons, ih fun d hd => hws d (List.mem_cons_of_mem _ hd)]
    simp [wordTestAt, stripLits_po_ws hc]

theorem wordTestAt_po_append_ws {ws : List Char}
    (hws : ∀ c ∈ ws, isWS c = true) (x : List Char) (c : Char) :
    wordTestAt "po".data (c :: (x ++ ws)) = wordTestAt "po".data (c :: x) := by
  show wordTestAt ['p', 'o'] (c :: (x ++ ws)) = wordTestAt ['p', 'o'] (c :: x)
  by_cases hc : (jsLower c == 'p') = true
  · cases x with
    | nil =>
      cases hws' : ws with
      | nil => simp [wordTestAt, stripLits, hc]
      | cons d ws' =>
        have hd : isWS d = true :=
          hws d (by rw [hws']; exact List.mem_cons_self d ws')
        have hdo : (jsLower d == 'o') = false := by
          rcases isWS_cases hd with rfl | rfl | rfl | rfl | rfl | rfl <;> decide
        simp [wordTestAt, stripLits, hc, hdo]
    | cons d x' =>
      by_cases hd : (jsLower d == 'o') = true
      · cases x' with
        | nil =>
          cases hws' : ws with
          | nil => simp [wordTestAt, stripLits, hc, hd, boundaryOK]
          | cons e ws' =>
            have he : isWS e = true :=
              hws e (by rw [hws']; exact List.mem_cons_self e ws')
            simp [wordTestAt, stripLits, hc, hd, boundaryOK, isWS_not_word he]
        | cons e x'' => simp [wordTestAt, stripLits, hc, hd, boundaryOK]
      · simp only [Bool.not_eq_true] at hd
        simp [wordTestAt, stripLits, hc, hd]
  · simp only [Bool.not_eq_true] at hc
    simp [wordTestAt, stripLits, hc]

theorem hasWordFrom_po_append_ws {ws : List Char}
    (hws : ∀ c ∈ ws, isWS c = true) (x : List Char) (p : Bool) :
    hasWordFrom "po".data p (x ++ ws) = hasWordFrom "po".data p x := by
  induction x generalizing p with
  | nil =>
    rw [List.nil_append]
    exact hasWordFrom_po_all_ws hws p
  | cons c x ih =>
    rw [List.cons_append, hasWordFrom_cons, hasWordFrom_cons,
      wordTestAt_po_append_ws hws, ih]

theorem hasWord_po_ltrim (l : List Char) :
    hasWord "po".data (ltrimWS l) = hasWord "po".data l := by
  induction l with
  | nil => rfl
  | cons c t ih =>
    by_cases hc : isWS c = true
    · have hlt : ltrimWS (c :: t) = ltrimWS t := by simp [ltrimWS, hc]
      rw [hlt, ih]
      unfold hasWord
      rw [hasWordFrom_cons, isWS_not_word hc]
      simp [wordTestAt, stripLits_po_ws hc]
    · simp only [Bool.not_eq_true] at hc
      simp [ltrimWS, hc]

theorem rtrim_decomp (l : List Char) :
    ∃ ws, l = rtrimWS l ++ ws ∧ ∀ c ∈ ws, isWS c = true := by
  refine ⟨(l.reverse.takeWhile isWS).reverse, ?_, ?_⟩
  · show l = (l.reverse.dropWhile isWS).reverse ++ (l.reverse.takeWhile isWS).reverse
    rw [← List.reverse_append, List.takeWhile_append_dropWhile,
      List.reverse_reverse]
  · intro c hc
    rw [List.mem_reverse] at hc
    exact List.mem_takeWhile_imp hc

theorem hasWord_po_rtrim (l : List Char) :
    hasWord "po".data (rtrimWS l) = hasWord "po".data l := by
  obtain ⟨ws, hdec, hws⟩ := rtrim_decomp l
  conv_rhs => rw [hdec]
  exact (hasWordFrom_po_append_ws hws _ _).symm

theorem hasWord_po_jsTrim (l : List Char) :
    hasWord "po".data (jsTrim l) = hasWord "po".data l := by
  unfold jsTrim
  rw [hasWord_po_rtrim, hasWord_po_ltrim]

theorem hasWordFrom_append_right {w y : List Char}
    (hy : ∀ p, hasWordFrom w p y = true) (x : List Char) (p : Bool) :
    hasWordFrom w p (x ++ y) = true := by
  induction x generalizing p with
  | nil => exact hy p
  | cons c x ih =>
    rw [List.cons_append, hasWordFrom_cons, ih]
    simp

theorem hasWordFrom_po_salamat (p : Bool) :
    hasWordFrom "po".data p " Salamat po!".data = true := by
  cases p <;> decide

theorem hasWord_ne_nil {w l : List Char} (h : hasWord w l = true) : l ≠ [] := by
  intro hnil
  rw [hnil] at h
  exact absurd h (by simp [hasWord, hasWordFrom])

theorem polishAppend_taglish_po (s : List Char) :
    hasWord "po".data (polishAppend s "taglish") = true := by
  unfold polishAppend
  by_cases hp : hasWord "po".data s = false
  · rw [if_pos ⟨rfl, hp⟩]
    exact hasWordFrom_append_right hasWordFrom_po_salamat s false
  · simp only [Bool.not_eq_false] at hp
    rw [if_neg fun hcon => by rw [hp] at hcon; simp at hcon]
    exact hp

theorem polishCore_taglish_po (l : List Char) :
    hasWord "po".data (polishCoreData l "taglish") = true := by
  unfold polishCoreData
  rw [hasWord_po_jsTrim]
  exact polishAppend_taglish_po _

/-! ## C1: language classifier threshold -/

/-- C1: for every input text, `detectLanguage` returns `"taglish"` exactly
when at least 2 distinct words of the fixed marker list occur in the text as
whole words, and `"english"` exactly when 0 or 1 of them do.  The filtered
marker list is duplicate-free, so its length counts distinct marker words. -/
theorem detectLanguage_marker_threshold (text : String) :
    (detectLanguage text = "taglish" ↔ 2 ≤ markerHits text) ∧
    (detectLanguage text = "english" ↔ markerHits text ≤ 1) ∧
    (markers.filter fun w => hasWord w (listLower text.data)).Nodup := by
  have hnd : markers.Nodup := by decide
  refine ⟨?_, ?_, hnd.filter _⟩ <;>
    · unfold detectLanguage markerHits
      by_cases h :
        2 ≤ (markers.filter fun w => hasWord w (listLower text.data)).length <;>
        simp [h] <;> omega

/-! ## C10: taglish-polished output always carries the particle "po" -/

/-- C10: for every input string, the output of `polish` with target language
`"taglish"` contains a whole-word occurrence of the politeness particle `po`
(appending `" Salamat po!"` when the input lacked it), hence is never empty.
This covers the `polish` of part_000 and the null-tolerant `polish` of
part_001. -/
theorem polish_taglish_contains_po (s : String) (t : Option String) :
    (hasWord "po".data (polish s "taglish").data = true ∧
      polish s "taglish" ≠ "") ∧
    (hasWord "po".data (polish1 t "taglish").data = true ∧
      polish1 t "taglish" ≠ "") := by
  have h0 : hasWord "po".data (polish s "taglish").data = true :=
    polishCore_taglish_po _
  have h1 : hasWord "po".data (polish1 t "taglish").data = true :=
    polishCore_taglish_po _
  refine ⟨⟨h0, fun hemp => ?_⟩, ⟨h1, fun hemp => ?_⟩⟩
  · exact hasWord_ne_nil h0 (congrArg String.data hemp)
  · exact hasWord_ne_nil h1 (congrArg String.data hemp)

/-! ## C5: behaviour of the normalizer on empty/null input -/

/-- C5 counterexample: `polish` applied to the empty string with target
language `"taglish"` returns `"Salamat po!"`, not the (empty) input
unchanged, refuting "empty or null input is returned unchanged". -/
theorem polish_empty_taglish_not_unchanged :
    polish "" "taglish" = "Salamat po!" ∧ ¬ polish "" "taglish" = "" := by
  constructor <;> decide

/-- C5 (amended): `polish` is a deterministic total function on strings (for
part_001 also on null/undefined input, which `clean` coerces to `""`); an
empty or null input is returned unchanged whenever the target language is not
`"taglish"`, while for `"taglish"` it yields `"Salamat po!"`. -/
theorem polish_empty_input (lang : String) :
    (lang ≠ "taglish" →
      polish "" lang = "" ∧ polish1 none lang = "" ∧
        polish1 (some "") lang = "") ∧
    polish "" lang = polish1 none lang ∧
    (lang = "taglish" → polish "" lang = "Salamat po!") := by
  have hcore : ∀ lg : String, lg ≠ "taglish" → polishCoreData [] lg = [] := by
    intro lg hlg
    unfold polishCoreData polishAppend
    rw [if_neg fun hcon => hlg hcon.1]
    rfl
  refine ⟨fun h => ⟨?_, ?_, ?_⟩, rfl, fun h => by rw [h]; decide⟩
  · show (⟨polishCoreData ("" : String).data lang⟩ : String) = ""
    rw [show ("" : String).data = [] from rfl, hcore lang h]
  · show (⟨polishCoreData (clean1 none).data lang⟩ : String) = ""
    rw [show (clean1 none).data = [] from rfl, hcore lang h]
  · show (⟨polishCoreData (clean1 (some "")).data lang⟩ : String) = ""
    rw [show (clean1 (some "")).data = [] from rfl, hcore lang h]

/-- C5 witness: the amended statement at the concrete language `"english"`. -/
theorem polish_empty_input_witness :
    ("english" : String) ≠ "taglish" ∧ polish "" "english" = "" :=
  ⟨by decide, ((polish_empty_input "english").1 (by decide)).1⟩

/-! ## C2: idempotence of the normalizer rules -/

/-- C2 counterexample: `dedupePo` is not idempotent.  On `"po po po"` the
first regex consumes the leading `"po po"` and resumes after it, so one
application yields `"po po"` while a second application yields `"po"`. -/
theorem dedupePo_not_idempotent :
    dedupePo "po po po" = "po po" ∧ dedupePo (dedupePo "po po po") = "po" ∧
    ¬ dedupePo (dedupePo "po po po") = dedupePo "po po po" :=
  ⟨by decide, by decide, by decide⟩

/-! Lemmas on `trim`. -/

theorem sentEnd_not_ws {c : Char} (h : isSentEnd c = true) : isWS c = false := by
  have h' := h
  simp only [isSentEnd, Bool.or_eq_true, beq_iff_eq] at h'
  rcases h' with (rfl | rfl) | rfl <;> decide

theorem head_dropWhile_not {p : Char → Bool} {l : List Char} {c : Char}
    (h : (l.dropWhile p).head? = some c) : p c = false := by
  induction l with
  | nil => simp [List.dropWhile] at h
  | cons a l ih =>
    rw [List.dropWhile_cons] at h
    by_cases hp : p a = true
    · rw [if_pos hp] at h
      exact ih h
    · rw [if_neg hp] at h
      simp only [List.head?_cons, Option.some.injEq] at h
      subst h
      simpa using hp

theorem ltrim_eq_self {l : List Char}
    (h : ∀ c, l.head? = some c → isWS c = false) : ltrimWS l = l := by
  cases l with
  | nil => rfl
  | cons a l => simp [ltrimWS, List.dropWhile_cons, h a rfl]

theorem rtrim_eq_self {l : List Char}
    (h : ∀ c, l.getLast? = some c → isWS c = false) : rtrimWS l = l := by
  unfold rtrimWS
  have hrev : l.reverse.dropWhile isWS = l.reverse := by
    show ltrimWS l.reverse = l.reverse
    refine ltrim_eq_self fun c hc => h c ?_
    rwa [List.head?_reverse] at hc
  rw [hrev, List.reverse_reverse]

theorem rtrim_head {m : List Char} {c : Char} (h : (rtrimWS m).head? = some c) :
    m.head? = some c := by
  obtain ⟨ws, hdec, _⟩ := rtrim_decomp m
  rw [hdec, List.head?_append_of_ne_nil]
  · exact h
  · intro hn
    rw [hn] at h
    simp at h

theorem jsTrim_head_not_ws {l : List Char} {c : Char}
    (h : (jsTrim l).head? = some c) : isWS c = false :=
  head_dropWhile_not (rtrim_head h)

theorem jsTrim_getLast_not_ws {l : List Char} {c : Char}
    (h : (jsTrim l).getLast? = some c) : isWS c = false := by
  unfold jsTrim rtrimWS at h
  rw [List.getLast?_reverse] at h
  exact head_dropWhile_not h

theorem jsTrim_eq_self {l : List Char}
    (h1 : ∀ c, l.head? = some c → isWS c = false)
    (h2 : ∀ c, l.getLast? = some c → isWS c = false) : jsTrim l = l := by
  unfold jsTrim
  rw [show ltrimWS l = l from ltrim_eq_self h1, rtrim_eq_self h2]

theorem jsTrim_idem (l : List Char) : jsTrim (jsTrim l) = jsTrim l :=
  jsTrim_eq_self (fun _ h => jsTrim_head_not_ws h)
    (fun _ h => jsTrim_getLast_not_ws h)

/-! Lemmas on `NoBreak` and the splitter. -/

theorem noBreak_of_append_left {a b : List Char} (h : NoBreak (a ++ b)) :
    NoBreak a :=
  (List.chain'_append.mp h).1

theorem noBreak_of_append_right {a b : List Char} (h : NoBreak (a ++ b)) :
    NoBreak b :=
  (List.chain'_append.mp h).2.1

theorem noBreak_ltrim {l : List Char} (h : NoBreak l) : NoBreak (ltrimWS l) := by
  have hdec : l.takeWhile isWS ++ ltrimWS l = l :=
    List.takeWhile_append_dropWhile isWS l
  exact noBreak_of_append_right (a := l.takeWhile isWS) (by rwa [hdec])

theorem noBreak_rtrim {l : List Char} (h : NoBreak l) : NoBreak (rtrimWS l) := by
  obtain ⟨ws, hdec, _⟩ := rtrim_decomp l
  exact noBreak_of_append_left (b := ws) (by rwa [← hdec])

theorem noBreak_jsTrim {l : List Char} (h : NoBreak l) : NoBreak (jsTrim l) :=
  noBreak_rtrim (noBreak_ltrim h)

theorem noBreak_head_false {c : Char} {m : List Char} (h : NoBreak (c :: m)) :
    (isSentEnd c && headWS m) = false := by
  rcases m with _ | ⟨d, m'⟩
  · simp [headWS]
  · have hpair := (List.chain'_cons'.mp h).1 d rfl
    simp only [headWS]
    by_cases h1 : isSentEnd c = true
    · by_cases h2 : isWS d = true
      · exact absurd ⟨h1, h2⟩ hpair
      · simp only [Bool.not_eq_true] at h2
        simp [h2]
    · simp only [Bool.not_eq_true] at h1
      simp [h1]

theorem splitGo_step_break {acc : List Char} {c : Char} {rest : List Char}
    (h : (isSentEnd c && headWS rest) = true) :
    splitGo acc (c :: rest) =
      (acc.reverse ++ [c]) :: splitGo [] (rest.dropWhile isWS) := by
  rw [splitGo]
  simp [h]

theorem splitGo_step_no {acc : List Char} {c : Char} {rest : List Char}
    (h : (isSentEnd c && headWS rest) = false) :
    splitGo acc (c :: rest) = splitGo (c :: acc) rest := by
  rw [splitGo]
  simp [h]

theorem splitGo_break (p : List Char) :
    ∀ (acc m : List Char), NoBreak p → EndsSent p →
      splitGo acc (p ++ ' ' :: m) =
        (acc.reverse ++ p) :: splitGo [] (m.dropWhile isWS) := by
  induction p with
  | nil =>
    intro acc m _ hes
    obtain ⟨c, hc, _⟩ := hes
    simp at hc
  | cons c p ih =>
    intro acc m hnb hes
    cases p with
    | nil =>
      have hcse : isSentEnd c = true := by
        obtain ⟨d, hd, hsd⟩ := hes
        simp only [List.getLast?_singleton, Option.some.injEq] at hd
        rwa [hd]
      have hcond : (isSentEnd c && headWS (' ' :: m)) = true := by
        simp [hcse, headWS, isWS]
      show splitGo acc (c :: (' ' :: m)) = _
      rw [splitGo_step_break hcond]
      have hdw : (' ' :: m).dropWhile isWS = m.dropWhile isWS := by
        rw [List.dropWhile_cons, if_pos (by decide)]
      rw [hdw]
    | cons d p' =>
      have hcond : (isSentEnd c && headWS ((d :: p') ++ ' ' :: m)) = false := by
        have hb := noBreak_head_false hnb
        simpa [headWS] using hb
      show splitGo acc (c :: ((d :: p') ++ ' ' :: m)) = _
      rw [splitGo_step_no hcond]
      rw [ih (c :: acc) m (List.Chain'.tail hnb) ?_]
      · simp
      · obtain ⟨e, he, hse⟩ := hes
        exact ⟨e, by rwa [List.getLast?_cons_cons] at he, hse⟩

theorem splitGo_noBreakAll {m : List Char} :
    ∀ acc, NoBreak m → splitGo acc m = [acc.reverse ++ m] := by
  induction m with
  | nil =>
    intro acc _
    rw [splitGo]
    simp
  | cons c m ih =>
    intro acc hnb
    rw [splitGo_step_no (noBreak_head_false hnb)]
    rw [ih (c :: acc) (List.Chain'.tail hnb)]
    simp

theorem joinSp_cons {q : List Char} {ps : List (List Char)} (h : ps ≠ []) :
    joinSp (q :: ps) = q ++ ' ' :: joinSp ps := by
  cases ps with
  | nil => exact absurd rfl h
  | cons r ps' => rfl

theorem chunks_tail {p : List Char} {ps : List (List Char)}
    (h : Chunks (p :: ps)) (hne : ps ≠ []) : Chunks ps := by
  obtain ⟨-, hnb, hdl, htl⟩ := h
  refine ⟨hne, fun q hq => hnb q (List.mem_cons_of_mem _ hq), ?_, ?_⟩
  · intro q hq
    apply hdl
    cases ps with
    | nil => exact absurd rfl hne
    | cons r ps' =>
      rw [List.dropLast_cons₂]
      exact List.mem_cons_of_mem _ hq
  · intro q hq c hc
    exact htl q (List.tail_subset ps hq) c hc

theorem chunks_roundtrip {ps : List (List Char)} (h : Chunks ps) :
    splitSents (joinSp ps) = ps := by
  induction ps with
  | nil => exact absurd rfl h.1
  | cons p ps ih =>
    obtain ⟨-, hnb, hdl, htl⟩ := h
    cases ps with
    | nil =>
      show splitGo [] (joinSp [p]) = [p]
      rw [show joinSp [p] = p from rfl,
        splitGo_noBreakAll [] (hnb p (by simp))]
      simp
    | cons q ps' =>
      rw [joinSp_cons (by simp)]
      show splitGo [] (p ++ ' ' :: joinSp (q :: ps')) = p :: q :: ps'
      have hpE : EndsSent p := by
        apply hdl
        rw [List.dropLast_cons₂]
        exact List.mem_cons_self _ _
      rw [splitGo_break p [] _ (hnb p (by simp)) hpE]
      simp only [List.reverse_nil, List.nil_append]
      congr 1
      cases hq : q with
      | nil =>
        cases ps' with
        | nil =>
          rw [show joinSp [([] : List Char)] = [] from rfl]
          rw [show (([] : List Char).dropWhile isWS) = [] from rfl]
          rw [splitGo]
          simp
        | cons r ps'' =>
          exfalso
          have hqE : EndsSent q := by
            apply hdl
            rw [List.dropLast_cons₂, hq]
            rw [List.dropLast_cons₂]
            exact List.mem_cons_of_mem _ (List.mem_cons_self _ _)
          obtain ⟨e, he, -⟩ := hqE
          rw [hq] at he
          simp at he
      | cons d q'' =>
        rw [← hq]
        have hdns : isWS d = false := by
          refine htl q (List.mem_cons_self _ _) d ?_
          rw [hq]
          rfl
        have hjoin_head : (joinSp (q :: ps')).head? = some d := by
          cases ps' with
          | nil =>
            rw [hq]
            rfl
          | cons r ps'' =>
            rw [joinSp_cons (by simp), hq]
            rfl
        have hdrop : (joinSp (q :: ps')).dropWhile isWS = joinSp (q :: ps') := by
          cases hj : joinSp (q :: ps') with
          | nil => rfl
          | cons e rest =>
            rw [hj] at hjoin_head
            simp only [List.head?_cons, Option.some.injEq] at hjoin_head
            rw [List.dropWhile_cons, if_neg]
            rw [hjoin_head, hdns]
            simp
        rw [hdrop]
        exact ih (chunks_tail ⟨by simp, hnb, hdl, htl⟩ (by simp))

/-! Invariants of the splitter output. -/

theorem splitGo_ne_nil (acc t : List Char) : splitGo acc t ≠ [] := by
  induction acc, t using splitGo.induct with
  | case1 acc =>
    rw [splitGo]
    simp
  | case2 acc c tail h ih =>
    rw [splitGo_step_break h]
    simp
  | case3 acc c tail h ih =>
    rw [splitGo_step_no (by simpa using h)]
    exact ih

theorem splitGo_parts_noBreak (acc t : List Char) :
    NoBreak (acc.reverse ++ t.take 1) → ∀ p ∈ splitGo acc t, NoBreak p := by
  induction acc, t using splitGo.induct with
  | case1 acc =>
    intro hinv p hp
    rw [splitGo] at hp
    simp only [List.mem_singleton] at hp
    subst hp
    simpa using hinv
  | case2 acc c tail h ih =>
    intro hinv p hp
    rw [splitGo_step_break h] at hp
    rcases List.mem_cons.mp hp with rfl | hp'
    · simpa using hinv
    · refine ih ?_ p hp'
      simp only [List.reverse_nil, List.nil_append]
      cases tail.dropWhile isWS with
      | nil => exact List.chain'_nil
      | cons e r =>
        rw [List.take_succ_cons, List.take_zero]
        exact List.chain'_singleton e
  | case3 acc c tail h ih =>
    intro hinv p hp
    have h' : (isSentEnd c && headWS tail) = false := by simpa using h
    rw [splitGo_step_no h'] at hp
    refine ih ?_ p hp
    rw [List.reverse_cons]
    cases tail with
    | nil => simpa using hinv
    | cons d tl =>
      rw [List.take_succ_cons, List.take_zero]
      rw [List.take_succ_cons, List.take_zero] at hinv
      refine List.chain'_append.mpr ⟨hinv, List.chain'_singleton d, ?_⟩
      intro x hx y hy
      rw [List.getLast?_concat] at hx
      simp only [Option.mem_def, Option.some.injEq, List.head?_cons] at hx hy
      subst hx
      subst hy
      rintro ⟨h1, h2⟩
      simp only [headWS, h1, h2, Bool.true_and] at h'
      exact absurd h' (by decide)

theorem splitGo_dropLast_endsSent (acc t : List Char) :
    ∀ p ∈ (splitGo acc t).dropLast, EndsSent p := by
  induction acc, t using splitGo.induct with
  | case1 acc =>
    intro p hp
    rw [splitGo] at hp
    simp at hp
  | case2 acc c tail h ih =>
    intro p hp
    rw [splitGo_step_break h] at hp
    rcases hrest : splitGo [] (tail.dropWhile isWS) with _ | ⟨r0, rs⟩
    · exact absurd hrest (splitGo_ne_nil _ _)
    · rw [hrest, List.dropLast_cons₂] at hp
      rcases List.mem_cons.mp hp with rfl | hp'
      · have hse : isSentEnd c = true := by
          have h' := h
          rw [Bool.and_eq_true] at h'
          exact h'.1
        exact ⟨c, List.getLast?_concat _, hse⟩
      · refine ih p ?_
        rw [hrest]
        exact hp'
  | case3 acc c tail h ih =>
    intro p hp
    rw [splitGo_step_no (by simpa using h)] at hp
    exact ih p hp

theorem splitGo_head (acc t : List Char) :
    ∃ s, (splitGo acc t).head? = some (acc.reverse ++ s) ∧
      s.head? = t.head? := by
  induction acc, t using splitGo.induct with
  | case1 acc =>
    refine ⟨[], ?_, rfl⟩
    rw [splitGo]
    simp
  | case2 acc c tail h ih =>
    refine ⟨[c], ?_, rfl⟩
    rw [splitGo_step_break h]
    rfl
  | case3 acc c tail h ih =>
    obtain ⟨s', h1, h2⟩ := ih
    refine ⟨c :: s', ?_, rfl⟩
    rw [splitGo_step_no (by simpa using h), h1]
    congr 1
    rw [List.reverse_cons, List.append_assoc]
    rfl

theorem splitGo_tail_heads (acc t : List Char) :
    ∀ p ∈ (splitGo acc t).tail, ∀ c, p.head? = some c → isWS c = false := by
  induction acc, t using splitGo.induct with
  | case1 acc =>
    intro p hp
    rw [splitGo] at hp
    simp at hp
  | case2 acc c tail h ih =>
    intro p hp e he
    rw [splitGo_step_break h] at hp
    simp only [List.tail_cons] at hp
    rcases hL : splitGo [] (tail.dropWhile isWS) with _ | ⟨r0, rs⟩
    · exact absurd hL (splitGo_ne_nil _ _)
    · rw [hL] at hp
      rcases List.mem_cons.mp hp with rfl | hp'
      · obtain ⟨s, h1, h2⟩ := splitGo_head [] (tail.dropWhile isWS)
        rw [hL] at h1
        simp only [List.head?_cons, Option.some.injEq, List.reverse_nil,
          List.nil_append] at h1
        rw [h1] at he
        rw [he] at h2
        exact head_dropWhile_not h2.symm
      · refine ih p ?_ e he
        rw [hL]
        exact hp'
  | case3 acc c tail h ih =>
    intro p hp e he
    rw [splitGo_step_no (by simpa using h)] at hp
    exact ih p hp e he

theorem splitSents_noBreak (t : List Char) : ∀ p ∈ splitSents t, NoBreak p := by
  refine splitGo_parts_noBreak [] t ?_
  cases t with
  | nil => exact List.chain'_nil
  | cons c tl =>
    rw [List.reverse_nil, List.nil_append, List.take_succ_cons, List.take_zero]
    exact List.chain'_singleton c

theorem tail_take {α : Type} (l : List α) (n : Nat) :
    (l.take n).tail = l.tail.take (n - 1) := by
  cases n with
  | zero => simp
  | succ m =>
    cases l with
    | nil => simp
    | cons a l => simp [List.take_succ_cons]

theorem mem_dropLast_take {α : Type} {l : List α} {n : Nat} {p : α}
    (hp : p ∈ (l.take n).dropLast) : p ∈ l.dropLast := by
  rw [List.dropLast_eq_take, List.length_take, List.take_take] at hp
  rw [List.dropLast_eq_take]
  have hmin : min (min n l.length - 1) n = min n l.length - 1 := by omega
  rw [hmin] at hp
  have h2 : l.take (min n l.length - 1) =
      (l.take (l.length - 1)).take (min n l.length - 1) := by
    rw [List.take_take]
    congr 1
    omega
  rw [h2] at hp
  exact List.mem_of_mem_take hp

theorem mem_tail_take {α : Type} {l : List α} {n : Nat} {p : α}
    (hp : p ∈ (l.take n).tail) : p ∈ l.tail := by
  rw [tail_take] at hp
  exact List.mem_of_mem_take hp

theorem chunks_take (t : List Char) {n : Nat} (hn : 1 ≤ n) :
    Chunks ((splitSents t).take n) := by
  refine ⟨?_, ?_, ?_, ?_⟩
  · cases hs : splitSents t with
    | nil => exact absurd hs (splitGo_ne_nil _ _)
    | cons a l =>
      cases n with
      | zero => omega
      | succ m => simp [List.take_succ_cons]
  · intro p hp
    exact splitSents_noBreak t p (List.mem_of_mem_take hp)
  · intro p hp
    exact splitGo_dropLast_endsSent [] t p (mem_dropLast_take hp)
  · intro p hp c hc
    exact splitGo_tail_heads [] t p (mem_tail_take hp) c hc

/-! Append behaviour of `trim` and `joinSp`. -/

theorem ltrim_ne_nil {p : List Char} {c : Char} (hc : c ∈ p)
    (hcw : isWS c = false) : ltrimWS p ≠ [] := by
  intro hnil
  have := (List.dropWhile_eq_nil_iff.mp hnil) c hc
  rw [hcw] at this
  exact absurd this (by decide)

theorem ltrim_append {p m : List Char} (hne : ltrimWS p ≠ []) :
    ltrimWS (p ++ m) = ltrimWS p ++ m := by
  show (p ++ m).dropWhile isWS = p.dropWhile isWS ++ m
  rw [List.dropWhile_append, if_neg]
  intro hcon
  exact hne (List.isEmpty_iff.mp hcon)

theorem rtrim_ne_nil {q : List Char} {d : Char} (hd : q.head? = some d)
    (hdw : isWS d = false) : rtrimWS q ≠ [] := by
  intro hnil
  obtain ⟨ws, hdec, hws⟩ := rtrim_decomp q
  rw [hnil, List.nil_append] at hdec
  subst hdec
  have := hws d (List.mem_of_mem_head? hd)
  rw [hdw] at this
  exact absurd this (by decide)

theorem rtrim_append_ws {x : List Char} (ws : List Char)
    (hws : ∀ c ∈ ws, isWS c = true) :
    rtrimWS (x ++ ws) = rtrimWS x := by
  unfold rtrimWS
  rw [List.reverse_append, List.dropWhile_append, if_pos]
  rw [List.isEmpty_iff, List.dropWhile_eq_nil_iff]
  intro c hc
  exact hws c (List.mem_reverse.mp hc)

theorem rtrim_append_keep {a b : List Char} (hb : rtrimWS b ≠ []) :
    rtrimWS (a ++ b) = a ++ rtrimWS b := by
  unfold rtrimWS
  rw [List.reverse_append, List.dropWhile_append, if_neg, List.reverse_append,
    List.reverse_reverse]
  intro hcon
  refine hb ?_
  unfold rtrimWS
  rw [List.isEmpty_iff.mp hcon]
  rfl

theorem getLast_ltrim {p : List Char} (hne : ltrimWS p ≠ []) :
    (ltrimWS p).getLast? = p.getLast? := by
  conv_rhs =>
    rw [← List.takeWhile_append_dropWhile (p := isWS) (l := p)]
  rw [List.getLast?_append]
  cases hl : (ltrimWS p).getLast? with
  | none =>
    rw [List.getLast?_eq_none_iff] at hl
    exact absurd hl hne
  | some c =>
    have hl' : (p.dropWhile isWS).getLast? = some c := hl
    rw [hl']
    rfl

theorem head_rtrim {q : List Char} (hne : rtrimWS q ≠ []) :
    (rtrimWS q).head? = q.head? := by
  obtain ⟨ws, hdec, _⟩ := rtrim_decomp q
  conv_rhs => rw [hdec]
  rw [List.head?_append_of_ne_nil _ hne]

theorem joinSp_concat {xs : List (List Char)} (q : List Char) (h : xs ≠ []) :
    joinSp (xs ++ [q]) = joinSp xs ++ ' ' :: q := by
  induction xs with
  | nil => exact absurd rfl h
  | cons x xs ih =>
    cases xs with
    | nil => rfl
    | cons y ys =>
      rw [List.cons_append, joinSp_cons (by simp), joinSp_cons (by simp),
        ih (by simp), List.append_assoc]
      rfl

theorem joinSp_getLast_sent (qs : List (List Char)) (hne : qs ≠ [])
    (hE : ∀ p ∈ qs, EndsSent p) :
    ∃ c, (joinSp qs).getLast? = some c ∧ isSentEnd c = true := by
  induction qs with
  | nil => exact absurd rfl hne
  | cons x xs ih =>
    cases xs with
    | nil =>
      obtain ⟨c, hc, hs⟩ := hE x (by simp)
      exact ⟨c, hc, hs⟩
    | cons y ys =>
      obtain ⟨c, hc, hs⟩ := ih (by simp) fun p hp => hE p (List.mem_cons_of_mem _ hp)
      refine ⟨c, ?_, hs⟩
      rw [joinSp_cons (by simp), List.getLast?_append]
      have hJne : joinSp (y :: ys) ≠ [] := by
        intro hcon
        rw [hcon] at hc
        simp at hc
      cases hj : joinSp (y :: ys) with
      | nil => exact absurd hj hJne
      | cons e rest =>
        rw [hj] at hc
        rw [show (' ' :: e :: rest).getLast? = (e :: rest).getLast? from
          List.getLast?_cons_cons, hc]
        rfl

/-! Trimming a join of chunks yields a join of (possibly fewer/adjusted)
chunks. -/

theorem chunks_trim (qs0 : List (List Char)) (h : Chunks qs0) :
    jsTrim (joinSp qs0) = [] ∨
    ∃ qs, Chunks qs ∧ qs.length ≤ qs0.length ∧
      jsTrim (joinSp qs0) = joinSp qs := by
  obtain ⟨hne, hnb, hdl, htl⟩ := h
  cases qs0 with
  | nil => exact absurd rfl hne
  | cons p1 rest =>
    rcases List.eq_nil_or_concat rest with hrnil | ⟨inner, q, hrq⟩
    · subst hrnil
      by_cases hr : jsTrim p1 = []
      · left
        rw [show joinSp [p1] = p1 from rfl, hr]
      · right
        refine ⟨[jsTrim p1], ⟨by simp, ?_, by simp, by simp⟩, by simp, rfl⟩
        intro pp hpp
        rw [List.mem_singleton] at hpp
        subst hpp
        exact noBreak_jsTrim (hnb p1 (by simp))
    · rw [List.concat_eq_append] at hrq
      subst hrq
      right
      have hdlEq : (p1 :: (inner ++ [q])).dropLast = p1 :: inner := by
        rw [show p1 :: (inner ++ [q]) = (p1 :: inner) ++ [q] by simp,
          List.dropLast_concat]
      have hp1E : EndsSent p1 := by
        refine hdl p1 ?_
        rw [hdlEq]
        exact List.mem_cons_self _ _
      have hinnE : ∀ i ∈ inner, EndsSent i := by
        intro i hi
        refine hdl i ?_
        rw [hdlEq]
        exact List.mem_cons_of_mem _ hi
      obtain ⟨c1, hc1, hc1s⟩ := hp1E
      have hc1w : isWS c1 = false := sentEnd_not_ws hc1s
      have hp1ne : ltrimWS p1 ≠ [] :=
        ltrim_ne_nil (List.mem_of_mem_getLast? hc1) hc1w
      have hp1'nb : NoBreak (ltrimWS p1) := noBreak_ltrim (hnb p1 (by simp))
      have hp1'E : EndsSent (ltrimWS p1) :=
        ⟨c1, by rw [getLast_ltrim hp1ne]; exact hc1, hc1s⟩
      have hltrim : ltrimWS (joinSp (p1 :: (inner ++ [q]))) =
          ltrimWS p1 ++ ' ' :: joinSp (inner ++ [q]) := by
        rw [joinSp_cons (by simp), ltrim_append hp1ne]
      rcases q with _ | ⟨d, q'⟩
      · -- the last part is the empty string: the final separator is trimmed
        rcases inner with _ | ⟨i0, inner'⟩
        · refine ⟨[ltrimWS p1], ⟨by simp, ?_, by simp, by simp⟩, by simp, ?_⟩
          · intro pp hpp
            rw [List.mem_singleton] at hpp
            subst hpp
            exact hp1'nb
          · show rtrimWS (ltrimWS (joinSp (p1 :: ([] ++ [[]])))) =
              joinSp [ltrimWS p1]
            rw [hltrim, show joinSp ([] ++ [([] : List Char)]) = [] from rfl,
              show (' ' :: ([] : List Char)) = [' '] from rfl,
              rtrim_append_ws [' '] (by intro c hc; simp at hc; rw [hc]; rfl),
              rtrim_eq_self fun c hcc => by
                rw [getLast_ltrim hp1ne, hc1] at hcc
                injection hcc with hcc
                exact hcc ▸ hc1w]
            rfl
        · refine ⟨ltrimWS p1 :: i0 :: inner', ⟨by simp, ?_, ?_, ?_⟩, by simp, ?_⟩
          · intro pp hpp
            rcases List.mem_cons.mp hpp with rfl | hpp'
            · exact hp1'nb
            · exact hnb pp (List.mem_cons_of_mem _ (List.mem_append_left _ hpp'))
          · intro pp hpp
            have hpp' := List.dropLast_subset _ hpp
            rcases List.mem_cons.mp hpp' with rfl | hpp''
            · exact hp1'E
            · exact hinnE pp hpp''
          · intro pp hpp c hc
            refine htl pp ?_ c hc
            exact List.mem_append_left _ hpp
          · show rtrimWS (ltrimWS (joinSp (p1 :: ((i0 :: inner') ++ [[]])))) =
              joinSp (ltrimWS p1 :: i0 :: inner')
            rw [hltrim, joinSp_concat _ (by simp)]
            rw [show ltrimWS p1 ++ ' ' :: (joinSp (i0 :: inner') ++ ' ' :: []) =
              (ltrimWS p1 ++ ' ' :: joinSp (i0 :: inner')) ++ [' '] by simp]
            rw [rtrim_append_ws [' ']
              (by intro c hc; simp at hc; rw [hc]; rfl)]
            rw [show ltrimWS p1 ++ ' ' :: joinSp (i0 :: inner') =
              joinSp (ltrimWS p1 :: i0 :: inner') from
              (joinSp_cons (by simp)).symm]
            have hallE : ∀ pp ∈ ltrimWS p1 :: i0 :: inner', EndsSent pp := by
              intro pp hpp
              rcases List.mem_cons.mp hpp with rfl | hpp'
              · exact hp1'E
              · exact hinnE pp hpp'
            refine rtrim_eq_self fun c hcc => ?_
            obtain ⟨e, he, hes⟩ :=
              joinSp_getLast_sent (ltrimWS p1 :: i0 :: inner') (by simp) hallE
            rw [he] at hcc
            injection hcc with hcc
            exact hcc ▸ sentEnd_not_ws hes
      · -- the last part is non-empty: its trailing whitespace is trimmed
        have hdw : isWS d = false := htl (d :: q') (by simp) d rfl
        have hrqne : rtrimWS (d :: q') ≠ [] := rtrim_ne_nil rfl hdw
        have hrqhead : (rtrimWS (d :: q')).head? = some d := by
          rw [head_rtrim hrqne]
          rfl
        have hrqnb : NoBreak (rtrimWS (d :: q')) := by
          refine noBreak_rtrim (hnb (d :: q') ?_)
          exact List.mem_cons_of_mem _ (List.mem_append_right _ (by simp))
        rcases inner with _ | ⟨i0, inner'⟩
        · refine ⟨[ltrimWS p1, rtrimWS (d :: q')], ⟨by simp, ?_, ?_, ?_⟩,
            by simp, ?_⟩
          · intro pp hpp
            rcases List.mem_cons.mp hpp with rfl | hpp'
            · exact hp1'nb
            · rw [List.mem_singleton] at hpp'
              subst hpp'
              exact hrqnb
          · intro pp hpp
            simp only [List.dropLast_cons₂, List.dropLast_single,
              List.mem_singleton] at hpp
            subst hpp
            exact hp1'E
          · intro pp hpp c hc
            simp only [List.tail_cons, List.mem_singleton] at hpp
            subst hpp
            rw [hrqhead] at hc
            injection hc with hc
            exact hc ▸ hdw
          · show rtrimWS (ltrimWS (joinSp (p1 :: ([] ++ [d :: q'])))) =
              joinSp [ltrimWS p1, rtrimWS (d :: q')]
            rw [hltrim, show joinSp ([] ++ [d :: q']) = d :: q' from rfl]
            rw [show ltrimWS p1 ++ ' ' :: (d :: q') =
              (ltrimWS p1 ++ [' ']) ++ (d :: q') by simp]
            rw [rtrim_append_keep hrqne]
            show (ltrimWS p1 ++ [' ']) ++ rtrimWS (d :: q') =
              ltrimWS p1 ++ ' ' :: rtrimWS (d :: q')
            simp
        · refine ⟨ltrimWS p1 :: ((i0 :: inner') ++ [rtrimWS (d :: q')]),
            ⟨by simp, ?_, ?_, ?_⟩, by simp, ?_⟩
          · intro pp hpp
            rcases List.mem_cons.mp hpp with rfl | hpp'
            · exact hp1'nb
            · rcases List.mem_append.mp hpp' with hpp'' | hpp''
              · exact hnb pp (List.mem_cons_of_mem _ (List.mem_append_left _ hpp''))
              · rw [List.mem_singleton] at hpp''
                subst hpp''
                exact hrqnb
          · intro pp hpp
            rw [show ltrimWS p1 :: ((i0 :: inner') ++ [rtrimWS (d :: q')]) =
              (ltrimWS p1 :: i0 :: inner') ++ [rtrimWS (d :: q')] by simp,
              List.dropLast_concat] at hpp
            rcases List.mem_cons.mp hpp with rfl | hpp'
            · exact hp1'E
            · exact hinnE pp hpp'
          · intro pp hpp c hc
            simp only [List.tail_cons] at hpp
            rcases List.mem_append.mp hpp with hpp' | hpp'
            · exact htl pp (List.mem_append_left _ hpp') c hc
            · rw [List.mem_singleton] at hpp'
              subst hpp'
              rw [hrqhead] at hc
              injection hc with hc
              exact hc ▸ hdw
          · show rtrimWS (ltrimWS (joinSp (p1 :: ((i0 :: inner') ++ [d :: q'])))) =
              joinSp (ltrimWS p1 :: ((i0 :: inner') ++ [rtrimWS (d :: q')]))
            rw [hltrim, joinSp_concat _ (by simp)]
            rw [show ltrimWS p1 ++ ' ' :: (joinSp (i0 :: inner') ++ ' ' :: (d :: q')) =
              ((ltrimWS p1 ++ ' ' :: joinSp (i0 :: inner')) ++ [' ']) ++ (d :: q')
              by simp]
            rw [rtrim_append_keep hrqne]
            conv_rhs => rw [joinSp_cons (by simp), joinSp_concat _ (by simp)]
            simp


/-- C2 (amended): the sentence-trim rule is idempotent: for every input
string and sentence limit, applying `trimToMaxSentences` twice (with the
same limit) yields the same result as applying it once.  (The deduplication
rule `dedupePo` is not idempotent; see the counterexample.) -/
theorem trimToMaxSentences_idempotent (text : String) (maxSentences : Nat) :
    trimToMaxSentences (trimToMaxSentences text maxSentences) maxSentences =
      trimToMaxSentences text maxSentences := by
  by_cases ht : text = ""
  · subst ht
    rfl
  · unfold trimToMaxSentences
    rw [if_neg ht]
    by_cases hmax : maxSentences = 0
    · subst hmax
      rw [show (splitSents text.data).take 0 = [] from rfl]
      rw [show jsTrim (joinSp []) = [] from rfl]
      rw [if_pos rfl]
    · have hn : 1 ≤ maxSentences := Nat.one_le_iff_ne_zero.mpr hmax
      have hch : Chunks ((splitSents text.data).take maxSentences) :=
        chunks_take text.data hn
      have hlen :
          ((splitSents text.data).take maxSentences).length ≤ maxSentences := by
        rw [List.length_take]
        omega
      rcases chunks_trim _ hch with hnil | ⟨qs, hqs, hqlen, heq⟩
      · rw [hnil, if_pos rfl]
      · rw [heq]
        by_cases hq0 : (⟨joinSp qs⟩ : String) = ""
        · rw [if_pos hq0]
        · rw [if_neg hq0]
          rw [show (⟨joinSp qs⟩ : String).data = joinSp qs from rfl]
          rw [show splitSents (joinSp qs) = qs from chunks_roundtrip hqs]
          rw [List.take_of_length_le (le_trans hqlen hlen)]
          rw [← heq, jsTrim_idem, heq]


/-! ## C4: the per-caller usage counter -/

/-- C4 counterexample: two sequential successful calls to part_000's endpoint
leave the usage tracker unchanged — the caller's counter is 0 afterwards, not
2.  (`usageTracker` is declared at module level but never read or written.) -/
theorem usageTracker_two_calls_no_increment :
    (handleGenerateReply0 ⟨false, true, false⟩
        ⟨some (some "Great!"), some "english"⟩
        ⟨.err "x", .ok "Thanks!", .err "x", .err "x"⟩ (fun _ => 0)).1.status =
      200 ∧
    (handleGenerateReply0 ⟨false, true, false⟩
        ⟨some (some "Great!"), some "english"⟩
        ⟨.err "x", .ok "Thanks!", .err "x", .err "x"⟩
        ((handleGenerateReply0 ⟨false, true, false⟩
          ⟨some (some "Great!"), some "english"⟩
          ⟨.err "x", .ok "Thanks!", .err "x", .err "x"⟩
          (fun _ => 0)).2.1)).1.status = 200 ∧
    (handleGenerateReply0 ⟨false, true, false⟩
        ⟨some (some "Great!"), some "english"⟩
        ⟨.err "x", .ok "Thanks!", .err "x", .err "x"⟩
        ((handleGenerateReply0 ⟨false, true, false⟩
          ⟨some (some "Great!"), some "english"⟩
          ⟨.err "x", .ok "Thanks!", .err "x", .err "x"⟩
          (fun _ => 0)).2.1)).2.1 "caller-1" = 0 ∧
    ¬(handleGenerateReply0 ⟨false, true, false⟩
        ⟨some (some "Great!"), some "english"⟩
        ⟨.err "x", .ok "Thanks!", .err "x", .err "x"⟩
        ((handleGenerateReply0 ⟨false, true, false⟩
          ⟨some (some "Great!"), some "english"⟩
          ⟨.err "x", .ok "Thanks!", .err "x", .err "x"⟩
          (fun _ => 0)).2.1)).2.1 "caller-1" = 2 := by
  refine ⟨by decide, by decide, by decide, by decide⟩

/-- C4 (amended): the part_000 endpoint never updates the usage tracker —
every request, successful or not, returns it unchanged, so two sequential
successful calls change any caller's counter by exactly 0. -/
theorem handle0_tracker_unchanged (cfg : Config) (body : Body) (pv : Providers)
    (usageTracker : String → Nat) :
    (handleGenerateReply0 cfg body pv usageTracker).2.1 = usageTracker := by
  simp only [handleGenerateReply0]
  by_cases h : cleanField body.reviewText = ""
  · simp [h]
  · simp only [if_neg h]
    split <;> rfl


/-! ## C3: validation of the review text -/

/-- C3 counterexample: the part_004 generate-reply endpoint does not trim —
a whitespace-only `reviewText` (`"   "`, empty after trimming) is truthy, so
the handler proceeds and calls the Groq provider with HTTP 200 instead of
returning 400 with no provider call.  (The v0.8 hybrid endpoint validates the
same way: `!reviewText || typeof reviewText !== "string"`.) -/
theorem handle4_whitespace_review_calls_provider :
    trimStr "   " = "" ∧
    handleGenerateReply4 ⟨false, true, true⟩ ⟨some (some "   "), none⟩
        ⟨.err "x", .ok "ok", .err "x", .err "x"⟩ =
      ({ status := 200, reply := some "ok", engine := some "groq" },
        [.groq]) ∧
    ¬(handleGenerateReply4 ⟨false, true, true⟩ ⟨some (some "   "), none⟩
        ⟨.err "x", .ok "ok", .err "x", .err "x"⟩).1.status = 400 := by
  refine ⟨by decide, by decide, by decide⟩

/-- C3 (amended): the part_001 endpoint rejects a missing, null, or
empty-after-trimming `reviewText` with HTTP 400, the message
`reviewText required` and no provider call; the part_004 endpoint does the
same only for missing/null/empty-string `reviewText` and forwards
whitespace-only text to a provider. -/
theorem handle1_empty_review_400 (cfg : Config) (body : Body) (pv : Providers)
    (h : body.reviewText = none ∨ body.reviewText = some none ∨
      ∃ s, body.reviewText = some (some s) ∧ trimStr s = "") :
    (handleGenerateReply1 cfg body pv).1.status = 400 ∧
    (handleGenerateReply1 cfg body pv).1.error = some "reviewText required" ∧
    (handleGenerateReply1 cfg body pv).2 = [] := by
  have hclean : cleanField body.reviewText = "" := by
    rcases h with h | h | ⟨s, h, hs⟩ <;> rw [h]
    · rfl
    · rfl
    · exact hs
  simp only [handleGenerateReply1, hclean]
  exact ⟨rfl, rfl, rfl⟩

/-- C3 witness: the amended statement at a whitespace-only review text. -/
theorem handle1_empty_review_400_witness :
    (∃ s, (⟨some (some "  "), some "english"⟩ : Body).reviewText =
        some (some s) ∧ trimStr s = "") ∧
    (handleGenerateReply1 ⟨true, true, true⟩ ⟨some (some "  "), some "english"⟩
      ⟨.ok "a", .ok "b", .ok "c", .ok "d"⟩).1.status = 400 :=
  ⟨⟨"  ", rfl, by decide⟩,
    (handle1_empty_review_400 ⟨true, true, true⟩
      ⟨some (some "  "), some "english"⟩ ⟨.ok "a", .ok "b", .ok "c", .ok "d"⟩
      (Or.inr (Or.inr ⟨"  ", rfl, by decide⟩))).1⟩


/-! ## C6: missing provider credentials -/

/-- C6 counterexample: in part_001, a request with language `"taglish"` and
no Gemini credential is not surfaced as HTTP 500 without retry: the
configuration error thrown by `geminiReply` is caught and the request is
retried against Groq, yielding HTTP 200 with engine `"groq-fallback"`. -/
theorem handle1_missing_gemini_falls_back :
    handleGenerateReply1 ⟨false, true, false⟩ ⟨some (some "ok"), some "taglish"⟩
        ⟨.err "x", .ok "Salamat!", .err "x", .err "x"⟩ =
      ({ status := 200, reply := some "Salamat! Salamat po!",
         engine := some "groq-fallback", language := some "taglish" },
        [.groq]) ∧
    ¬(handleGenerateReply1 ⟨false, true, false⟩
        ⟨some (some "ok"), some "taglish"⟩
        ⟨.err "x", .ok "Salamat!", .err "x", .err "x"⟩).1.status = 500 := by
  refine ⟨by decide, by decide⟩

theorem groqReply1_calls (cfg : Config) (o : Outcome) :
    (groqReply1 cfg o).2 = [] ∨ (groqReply1 cfg o).2 = [Call.groq] := by
  unfold groqReply1
  by_cases h : cfg.groq
  · cases o <;> simp [h]
  · simp [h]

/-- C6 (amended): an absent provider credential aborts the request before any
remote call.  In part_004 it is surfaced, as the claim states, as HTTP 500
with a distinct message and no call to any provider; in part_001 the provider
helper fails fast with a distinct code (`GROQ_NOT_CONFIGURED` /
`GEMINI_NOT_CONFIGURED`) and no remote call to that provider, but on the
taglish path a missing Gemini credential is recovered by the single Groq
fallback (HTTP 200, engine `"groq-fallback"`) rather than surfaced as 500;
on the non-taglish path a missing Groq credential is surfaced as 500 with
details `GROQ_NOT_CONFIGURED` and no call. -/
theorem provider_credential_missing (cfg : Config) (body : Body)
    (pv : Providers) :
    (∀ s, body.reviewText = some (some s) → ¬s = "" →
      ((⟨jsTrim (listLower (body.language.getD "").data)⟩ : String) = "taglish" ∨
        (⟨jsTrim (listLower (body.language.getD "").data)⟩ : String) = "filipino" ∨
        (⟨jsTrim (listLower (body.language.getD "").data)⟩ : String) = "tagalog") →
      cfg.openai = false →
      handleGenerateReply4 cfg body pv =
        ({ status := 500,
           error := some "OpenAI key not configured on server." }, [])) ∧
    (∀ s, body.reviewText = some (some s) → ¬s = "" →
      ¬((⟨jsTrim (listLower (body.language.getD "").data)⟩ : String) = "taglish" ∨
        (⟨jsTrim (listLower (body.language.getD "").data)⟩ : String) = "filipino" ∨
        (⟨jsTrim (listLower (body.language.getD "").data)⟩ : String) = "tagalog") →
      cfg.groq = false →
      handleGenerateReply4 cfg body pv =
        ({ status := 500,
           error := some "Groq key not configured on server." }, [])) ∧
    (¬cleanField body.reviewText = "" →
      ¬normalizeLanguage body.language (cleanField body.reviewText) = "taglish" →
      cfg.groq = false →
      handleGenerateReply1 cfg body pv =
        ({ status := 500, error := some "SERVER_ERROR",
           details := some "GROQ_NOT_CONFIGURED" }, [])) ∧
    (cfg.gemini = false →
      Call.gemini ∉ (handleGenerateReply1 cfg body pv).2) := by
  refine ⟨?_, ?_, ?_, ?_⟩
  · intro s hrt hs hlang hoa
    simp only [handleGenerateReply4, hrt, if_neg hs, if_pos hlang, hoa]
    simp
  · intro s hrt hs hlang hgr
    simp only [handleGenerateReply4, hrt, if_neg hs, if_neg hlang, hgr]
    simp
  · intro hrt hlang hgr
    simp only [handleGenerateReply1, if_neg hrt, if_neg hlang, groqReply1, hgr]
    simp
  · intro hg
    unfold handleGenerateReply1 geminiReply1 groqReply1
    by_cases hrt : cleanField body.reviewText = ""
    · simp [hrt]
    · by_cases hlang :
          normalizeLanguage body.language (cleanField body.reviewText) =
            "taglish" <;>
        rcases hgc : cfg.groq with _ | _ <;>
          rcases hpg : pv.groq with s | m <;>
            simp [hrt, hlang, hgc, hpg, hg] <;> (try split) <;> simp

/-- C6 witness: the amended statement at a concrete part_004 request with the
Taglish path selected and no OpenAI key. -/
theorem provider_credential_missing_witness :
    handleGenerateReply4 ⟨false, true, false⟩ ⟨some (some "hi"), some "taglish"⟩
        ⟨.err "x", .ok "y", .err "x", .err "x"⟩ =
      ({ status := 500,
         error := some "OpenAI key not configured on server." }, []) :=
  (provider_credential_missing ⟨false, true, false⟩
    ⟨some (some "hi"), some "taglish"⟩
    ⟨.err "x", .ok "y", .err "x", .err "x"⟩).1 "hi" rfl (by decide)
    (Or.inl (by decide)) rfl


/-! ## C7, C8, C9: routing and response behaviour -/

theorem normalizeLanguage_explicit (text : String) :
    normalizeLanguage (some "english") text = "english" ∧
    normalizeLanguage (some "taglish") text = "taglish" ∧
    normalizeLanguage0 (some "english") text = "english" ∧
    normalizeLanguage0 (some "taglish") text = "taglish" :=
  ⟨rfl, rfl, rfl, rfl⟩

/-- C7: for a request resolved to `"taglish"` whose primary (Gemini) call
fails — unconfigured client or thrown error — while Groq is configured and
its call returns, both endpoints answer 200 with engine `"groq-fallback"`
and a non-empty reply.  In part_000 (first conjunct) the reply is non-empty
even when Groq returns the empty string, because `polish` appends the
politeness phrase; part_001 (second conjunct) additionally requires the
fallback content to be non-empty, otherwise its empty-reply guard fires. -/
theorem taglish_fallback_uses_groq (cfg : Config) (body : Body)
    (pv : Providers) (s : String) :
    (¬cleanField body.reviewText = "" →
      normalizeLanguage0 body.language (cleanField body.reviewText) =
        "taglish" →
      (cfg.gemini = false ∨ ∃ m, pv.gemini = .err m) →
      cfg.groq = true → pv.groq = .ok s →
      ∀ tracker : String → Nat,
        (handleGenerateReply0 cfg body pv tracker).1.status = 200 ∧
        (handleGenerateReply0 cfg body pv tracker).1.engine =
          some "groq-fallback" ∧
        ∃ r, (handleGenerateReply0 cfg body pv tracker).1.reply = some r ∧
          ¬r = "") ∧
    (¬cleanField body.reviewText = "" →
      normalizeLanguage body.language (cleanField body.reviewText) =
        "taglish" →
      (cfg.gemini = false ∨ ∃ m, pv.gemini = .err m) →
      cfg.groq = true → pv.groq = .ok s → ¬s = "" →
        (handleGenerateReply1 cfg body pv).1.status = 200 ∧
        (handleGenerateReply1 cfg body pv).1.engine = some "groq-fallback" ∧
        ∃ r, (handleGenerateReply1 cfg body pv).1.reply = some r ∧
          ¬r = "") := by
  have hne0 : ¬polish s "taglish" = "" := fun hh =>
    hasWord_ne_nil (polishCore_taglish_po s.data) (congrArg String.data hh)
  have hne1 : ¬polish1 (some s) "taglish" = "" := fun hh =>
    hasWord_ne_nil (polishCore_taglish_po (clean1 (some s)).data)
      (congrArg String.data hh)
  constructor
  · intro hrt hlang hgemfail hgc hpg tracker
    rcases hgemfail with hgf | ⟨m, hgf⟩
    · simp [handleGenerateReply0, geminiReply0, groqReply0, hrt, hlang,
        hgf, hgc, hpg]
      exact hne0
    · rcases hcg : cfg.gemini with _ | _ <;>
        · simp [handleGenerateReply0, geminiReply0, groqReply0, hrt, hlang,
            hgf, hgc, hpg, hcg]
          exact hne0
  · intro hrt hlang hgemfail hgc hpg hs
    rcases hgemfail with hgf | ⟨m, hgf⟩
    · simp [handleGenerateReply1, geminiReply1, groqReply1, hrt, hlang,
        hgf, hgc, hpg, hs]
      exact hne1
    · rcases hcg : cfg.gemini with _ | _ <;>
        · simp [handleGenerateReply1, geminiReply1, groqReply1, hrt, hlang,
            hgf, hgc, hpg, hs, hcg]
          exact hne1

/-- C7 witness: part_000 with an unconfigured Gemini client, a Groq call
returning the empty string, and explicit language `"taglish"`: the response
is 200 with engine `"groq-fallback"` and the non-empty reply
`"Salamat po!"`. -/
theorem taglish_fallback_uses_groq_witness :
    ¬cleanField ((⟨some (some "ok po"), some "taglish"⟩ : Body)).reviewText =
      "" ∧
    (handleGenerateReply0 ⟨false, true, false⟩
        ⟨some (some "ok po"), some "taglish"⟩
        ⟨.err "boom", .ok "", .err "x", .err "x"⟩ (fun _ => 0)).1.status =
      200 ∧
    (handleGenerateReply0 ⟨false, true, false⟩
        ⟨some (some "ok po"), some "taglish"⟩
        ⟨.err "boom", .ok "", .err "x", .err "x"⟩
        (fun _ => 0)).1.engine = some "groq-fallback" ∧
    ∃ r, (handleGenerateReply0 ⟨false, true, false⟩
        ⟨some (some "ok po"), some "taglish"⟩
        ⟨.err "boom", .ok "", .err "x", .err "x"⟩
        (fun _ => 0)).1.reply = some r ∧ ¬r = "" := by
  have h := (taglish_fallback_uses_groq ⟨false, true, false⟩
    ⟨some (some "ok po"), some "taglish"⟩
    ⟨.err "boom", .ok "", .err "x", .err "x"⟩ "").1
    (by decide) (by decide) (Or.inl rfl) rfl rfl (fun _ => 0)
  exact ⟨by decide, h.1, h.2.1, h.2.2⟩

/-- C8: when the selected provider call succeeds but returns the empty
string, part_001 responds 502 with the distinct code `EMPTY_REPLY` (for
whichever path produced the empty text), and that code and status differ
from the validation (400 `reviewText required`), configuration/server
(500 `SERVER_ERROR`) responses. -/
theorem empty_reply_502 (cfg : Config) (body : Body) (pv : Providers) :
    (¬cleanField body.reviewText = "" →
      ¬normalizeLanguage body.language (cleanField body.reviewText) =
        "taglish" →
      cfg.groq = true → pv.groq = .ok "" →
      handleGenerateReply1 cfg body pv =
        ({ status := 502, error := some "EMPTY_REPLY",
           engine := some "groq" }, [.groq])) ∧
    (¬cleanField body.reviewText = "" →
      normalizeLanguage body.language (cleanField body.reviewText) =
        "taglish" →
      cfg.gemini = true → pv.gemini = .ok "" →
      handleGenerateReply1 cfg body pv =
        ({ status := 502, error := some "EMPTY_REPLY",
           engine := some "gemini" }, [.gemini])) ∧
    (¬cleanField body.reviewText = "" →
      normalizeLanguage body.language (cleanField body.reviewText) =
        "taglish" →
      cfg.gemini = true → (∃ m, pv.gemini = .err m) →
      cfg.groq = true → pv.groq = .ok "" →
      handleGenerateReply1 cfg body pv =
        ({ status := 502, error := some "EMPTY_REPLY",
           engine := some "groq-fallback" }, [.gemini, .groq])) ∧
    (¬("EMPTY_REPLY" : String) = "reviewText required" ∧
      ¬("EMPTY_REPLY" : String) = "SERVER_ERROR" ∧ ¬(502 : Nat) = 400 ∧
      ¬(502 : Nat) = 500) := by
  refine ⟨?_, ?_, ?_, by decide⟩
  · intro hrt hlang hgc hpg
    simp [handleGenerateReply1, groqReply1, hrt, hlang, hgc, hpg]
  · intro hrt hlang hgem hpm
    simp [handleGenerateReply1, geminiReply1, hrt, hlang, hgem, hpm]
  · intro hrt hlang hgem hpm hgc hpg
    rcases hpm with ⟨m, hpm⟩
    simp [handleGenerateReply1, geminiReply1, groqReply1, hrt, hlang, hgem,
      hpm, hgc, hpg]

/-- C8 witness: a valid English-path request whose Groq call returns the
empty string yields the 502 `EMPTY_REPLY` response. -/
theorem empty_reply_502_witness :
    handleGenerateReply1 ⟨false, true, false⟩
        ⟨some (some "Nice item"), some "english"⟩
        ⟨.err "x", .ok "", .err "x", .err "x"⟩ =
      ({ status := 502, error := some "EMPTY_REPLY", engine := some "groq" },
        [.groq]) :=
  (empty_reply_502 ⟨false, true, false⟩ ⟨some (some "Nice item"), some "english"⟩
    ⟨.err "x", .ok "", .err "x", .err "x"⟩).1 (by decide) (by decide) rfl rfl

/-- C9: for a request with explicit language `"english"`, part_001 never
calls the Gemini provider under any configuration or call outcomes; when the
Groq call succeeds with non-empty content, the response is 200 with the
`language` field `"english"` and exactly one Groq call; and the v0.8 hybrid
`shouldUseOpenAI` chooses Groq (returns false) for `"english"` regardless of
whether an OpenAI key is configured. -/
theorem english_request_uses_groq_only (cfg : Config) (body : Body)
    (pv : Providers) (s : String) (openaiConfigured : Bool) :
    body.language = some "english" →
    ¬cleanField body.reviewText = "" →
    (Call.gemini ∉ (handleGenerateReply1 cfg body pv).2) ∧
    (cfg.groq = true → pv.groq = .ok s → ¬s = "" →
      (handleGenerateReply1 cfg body pv).1.status = 200 ∧
      (handleGenerateReply1 cfg body pv).1.language = some "english" ∧
      (handleGenerateReply1 cfg body pv).2 = [Call.groq]) ∧
    shouldUseOpenAI openaiConfigured (some "english") = false := by
  intro hl hrt
  have hlang : normalizeLanguage body.language (cleanField body.reviewText) =
      "english" := by
    rw [hl]
    exact (normalizeLanguage_explicit _).1
  have hlne : ¬normalizeLanguage body.language (cleanField body.reviewText) =
      "taglish" := by
    rw [hlang]
    decide
  refine ⟨?_, ?_, by cases openaiConfigured <;> rfl⟩
  · unfold handleGenerateReply1 groqReply1
    rcases hgc : cfg.groq with _ | _ <;>
      rcases hpg : pv.groq with t | m <;>
        simp [hrt, hlne, hgc, hpg] <;> (try split) <;> simp
  · intro hgc hpg hs
    simp [handleGenerateReply1, groqReply1, hrt, hlne, hlang, hgc, hpg, hs]

/-- C9 witness: the spec's example request (`"Item arrived quickly and was
well packed."`, language `"english"`) with a successful Groq call: only Groq
is called and the response's language field is `"english"`. -/
theorem english_request_uses_groq_only_witness :
    (⟨some (some "Item arrived quickly and was well packed."),
        some "english"⟩ : Body).language = some "english" ∧
    (handleGenerateReply1 ⟨true, true, true⟩
        ⟨some (some "Item arrived quickly and was well packed."),
          some "english"⟩
        ⟨.ok "g", .ok "Thank you!", .ok "o", .ok "o"⟩).1.language =
      some "english" ∧
    (handleGenerateReply1 ⟨true, true, true⟩
        ⟨some (some "Item arrived quickly and was well packed."),
          some "english"⟩
        ⟨.ok "g", .ok "Thank you!", .ok "o", .ok "o"⟩).2 = [Call.groq] ∧
    shouldUseOpenAI true (some "english") = false := by
  have h := english_request_uses_groq_only ⟨true, true, true⟩
    ⟨some (some "Item arrived quickly and was well packed."), some "english"⟩
    ⟨.ok "g", .ok "Thank you!", .ok "o", .ok "o"⟩ "Thank you!" true
    rfl (by decide)
  exact ⟨rfl, (h.2.1 rfl rfl (by decide)).2.1, (h.2.1 rfl rfl (by decide)).2.2,
    h.2.2⟩

end ReplyPilot
